import Mathlib

/-!
# Verification of the Wealth Advisor orchestration core and frontend glue

This file embeds the Query Router / Tool Orchestrator / Context Combiner
pipeline of the Wealth Advisor application, together with two pieces of the
Next.js frontend (the `useChat` hook's `sendMessage` and the
`/api/settings/save-keys` route handler), and proves the specified
properties about them.

The orchestration core (classifier, fan-out executor, normalizer, combiner)
is not part of the checked-in sources; those definitions are modelled from
the specification, as indicated by their doc comments.  The frontend
definitions are translated directly from the TypeScript sources.
-/

namespace WealthAdvisor

/-! ## Data model (modelled from the spec, §3) -/

/-- Modelled from the spec: static descriptor of one tool adapter
(§3 ToolSpec); the adapters themselves are absent from the sources. -/
structure ToolSpec where
  id : String
  tags : List String
  enabled : Bool
  timeoutMs : Nat
  max_retries : Nat
deriving DecidableEq, Repr

/-- Modelled from the spec: the settled/pending state of one adapter
invocation (§3 ToolInvocation). -/
inductive InvStatus where
  | pending
  | success
  | timeout
  | error
deriving DecidableEq, Repr

/-- Modelled from the spec: one pre-parsed item of an adapter's raw payload
(title+snippet+url style result, §4.4); the concrete adapters are absent
from the sources. -/
structure RawItem where
  title : String
  snippet : String
  url : String
  score : Rat
  itemTime : Nat
deriving DecidableEq, Repr

/-- Modelled from the spec: one adapter invocation per request
(§3 ToolInvocation), finalized when the adapter call settles. -/
structure ToolInvocation where
  tool_id : String
  status : InvStatus
  raw_payload : Option (List RawItem)
  latency : Nat
  attempt_count : Nat
deriving DecidableEq, Repr

/-- Modelled from the spec: normalized unit of evidence (§3 ContextRecord). -/
structure ContextRecord where
  source_tool : String
  title : String
  body_text : String
  url_or_reference : String
  relevance_score : Rat
  timestamp : Nat
deriving DecidableEq, Repr

/-- Modelled from the spec: the combined evidence handed to synthesis
(§3 ContextBundle). -/
structure ContextBundle where
  records : List ContextRecord
  tools_used : List String
  overall_confidence : Rat
deriving DecidableEq, Repr

/-! ## Executable string primitives

JavaScript's `trim`/`toLowerCase` and substring search are rendered
structurally over character lists so that every definition evaluates. -/

/-- Drop leading and trailing whitespace from a character list
(the semantics of JavaScript's `String.prototype.trim`). -/
def jsTrimList (cs : List Char) : List Char :=
  (((cs.dropWhile Char.isWhitespace).reverse).dropWhile Char.isWhitespace).reverse

/-- JavaScript's `s.trim()`. -/
def jsTrim (s : String) : String := String.mk (jsTrimList s.toList)

/-- JavaScript's `s.toLowerCase()` (ASCII case folding). -/
def jsToLower (s : String) : String := String.mk (s.toList.map Char.toLower)

/-- `needle` occurs as a contiguous sublist of the second argument. -/
def containsSub (needle : List Char) : List Char → Bool
  | [] => needle.isEmpty
  | c :: t => needle.isPrefixOf (c :: t) || containsSub needle t

/-! ## Query Classifier (modelled from the spec, §4.1) -/

/-- Modelled from the spec: the catch-all capability tag (§4.1). -/
def fallbackTag : String := "document"

/-- Modelled from the spec: the static keyword/pattern table driving
classification (§4.1); the concrete table is absent from the sources. -/
def keywordTable : List (String × String) :=
  [("news", "web"), ("latest", "web"), ("website", "web"),
   ("paper", "academic"), ("research", "academic"), ("study", "academic"),
   ("stock", "market-data"), ("price", "market-data"),
   ("market", "market-data"), ("ticker", "market-data"),
   ("document", "document"), ("report", "document"), ("pdf", "document")]

/-- Keyword containment test: `kw` occurs as a substring of `q`. -/
def containsKeyword (q kw : String) : Bool :=
  containsSub kw.toList q.toList

/-- Modelled from the spec: `classify(question) -> set<capability tag>`
(§4.1): a pure function of the question text against the keyword table,
falling back to the catch-all document tag when nothing matches. -/
def classify (question : String) : List String :=
  let q := jsToLower question
  let matched :=
    ((keywordTable.filter fun kv => containsKeyword q kv.1).map Prod.snd).dedup
  if matched = [] then [fallbackTag] else matched

/-! ## Fan-Out Executor (modelled from the spec, §4.3)

Concurrency itself is outside a shallow embedding; each adapter's behaviour
for one request is modelled as an oracle mapping the attempt number to the
outcome of that attempt, and the executor's fan-out/join is modelled as the
per-tool retry loop applied to every selected tool.  The returned list is
exactly what the executor hands back after all invocations settle. -/

/-- Modelled from the spec: the outcome of a single adapter attempt
(§6 Tool Adapter boundary: success, `Timeout`, `TransientError`, or
`ValidationError`). -/
inductive AttemptOutcome where
  | succeeded (payload : List RawItem)
  | timedOut
  | transientError
  | validationError
deriving DecidableEq, Repr

/-- An attempt outcome counts as a success. -/
def AttemptOutcome.isSucceeded : AttemptOutcome → Bool
  | .succeeded _ => true
  | _ => false

/-- Modelled from the spec: the bounded retry loop of §4.3 — retry on
transient failure (timeout or 5xx-class error) while retries remain, record
the final status as the last attempt's outcome, and never retry a
validation failure.  Returns (status, payload, attempt count). -/
def runAttempts (behavior : Nat → AttemptOutcome) :
    Nat → Nat → InvStatus × Option (List RawItem) × Nat
  | retriesLeft, attemptsDone =>
    match behavior attemptsDone, retriesLeft with
    | .succeeded p, _ => (.success, some p, attemptsDone + 1)
    | .validationError, _ => (.error, none, attemptsDone + 1)
    | .timedOut, 0 => (.timeout, none, attemptsDone + 1)
    | .timedOut, r + 1 => runAttempts behavior r (attemptsDone + 1)
    | .transientError, 0 => (.error, none, attemptsDone + 1)
    | .transientError, r + 1 => runAttempts behavior r (attemptsDone + 1)

/-- Modelled from the spec: run one tool's adapter under the §4.3 timeout
and retry policy, producing the finalized `ToolInvocation` (wall-clock
latency is outside the embedding and recorded as 0). -/
def invokeWithPolicy (t : ToolSpec) (behavior : Nat → AttemptOutcome) :
    ToolInvocation :=
  let r := runAttempts behavior t.max_retries 0
  { tool_id := t.id, status := r.1, raw_payload := r.2.1, latency := 0,
    attempt_count := r.2.2 }

/-- Modelled from the spec: `execute(list<ToolSpec>, question) ->
list<ToolInvocation>` (§4.3).  Every selected tool yields exactly one
invocation; adapter failures are absorbed into the invocation's status. -/
def execute (tools : List ToolSpec) (question : String)
    (behaviors : String → String → Nat → AttemptOutcome) :
    List ToolInvocation :=
  tools.map fun t => invokeWithPolicy t (behaviors t.id question)

/-! ## Context Normalizer (modelled from the spec, §4.4) -/

/-- Modelled from the spec: build one `ContextRecord` from one pre-parsed
payload item of a given tool (§4.4). -/
def recordOfItem (toolId : String) (it : RawItem) : ContextRecord :=
  { source_tool := toolId, title := it.title, body_text := it.snippet,
    url_or_reference := it.url, relevance_score := it.score,
    timestamp := it.itemTime }

/-- Modelled from the spec: `normalize(ToolInvocation) ->
list<ContextRecord>` (§4.4) — zero records for any invocation not in
`success` status. -/
def normalizeInvocation (inv : ToolInvocation) : List ContextRecord :=
  match inv.status, inv.raw_payload with
  | .success, some items => items.map (recordOfItem inv.tool_id)
  | _, _ => []

/-! ## Response Combiner (modelled from the spec, §4.5) -/

/-- Modelled from the spec: the tunable combiner configuration (§6
configuration surface): maximum retained record count and the
confidence-weighting parameters. -/
structure CombinerConfig where
  maxRecords : Nat
  wSuccess : Rat
  wRelevance : Rat
deriving DecidableEq, Repr

/-- Normalization of `body_text` used by deduplication (§4.5 step 1). -/
def normalizeBody (s : String) : String := jsTrim (jsToLower s)

/-- Two records are duplicates when their `(source_tool, url_or_reference)`
pairs, or their normalized `body_text`s, are identical (§4.5 step 1). -/
def isDup (a b : ContextRecord) : Bool :=
  (a.source_tool == b.source_tool && a.url_or_reference == b.url_or_reference)
    || normalizeBody a.body_text == normalizeBody b.body_text

/-- Fold one record into the already-deduplicated prefix: if it duplicates
a kept record, keep only the higher-scored of the two (in the kept record's
position, preserving insertion order), otherwise append it. -/
def insertDedup (r : ContextRecord) : List ContextRecord → List ContextRecord
  | [] => [r]
  | d :: rest =>
    if isDup d r then
      (if d.relevance_score < r.relevance_score then r :: rest else d :: rest)
    else d :: insertDedup r rest

/-- Modelled from the spec: deduplication (§4.5 step 1). -/
def dedupRecords (l : List ContextRecord) : List ContextRecord :=
  l.foldl (fun acc r => insertDedup r acc) []

/-- Ranking order: higher `relevance_score` first (§4.5 step 2). -/
def leScore (a b : ContextRecord) : Prop :=
  b.relevance_score ≤ a.relevance_score

instance : DecidableRel leScore :=
  fun a b => inferInstanceAs (Decidable (b.relevance_score ≤ a.relevance_score))

instance : IsTotal ContextRecord leScore :=
  ⟨fun a b => le_total b.relevance_score a.relevance_score⟩

instance : IsTrans ContextRecord leScore :=
  ⟨fun _ _ _ h1 h2 => le_trans h2 h1⟩

/-- Modelled from the spec: ranking by `relevance_score` descending, stable
on ties by insertion order (§4.5 step 2); insertion sort is stable. -/
def rankRecords (l : List ContextRecord) : List ContextRecord :=
  List.insertionSort leScore l

/-- Clamp a rational into `[0,1]`. -/
def clamp01 (q : Rat) : Rat := min 1 (max 0 q)

/-- The per-record relevance contribution, clamped into `[0,1]`. -/
def clampedScore (r : ContextRecord) : Rat := clamp01 r.relevance_score

/-- Modelled from the spec: the fraction of invoked tools that yielded at
least one record (§4.5 step 4, first factor). -/
def successFraction (invoked : List String) (records : List ContextRecord) :
    Rat :=
  if invoked = [] then 0
  else
    ((invoked.filter fun t =>
        decide (t ∈ records.map ContextRecord.source_tool)).length : Rat)
      / (invoked.length : Rat)

/-- Modelled from the spec: the relevance factor of §4.5 step 4 — the mean
clamped relevance of the retained records over the record capacity. -/
def relevanceFactor (maxRecords : Nat) (retained : List ContextRecord) :
    Rat :=
  if maxRecords = 0 then 0
  else (retained.map clampedScore).sum / (maxRecords : Rat)

/-- Modelled from the spec: `overall_confidence` (§4.5 step 4) — a weighted
sum of the tool-success fraction and the relevance factor; zero retained
records yield exactly 0 (§4.5 edge case).  The weights are the tunable
parameters of §6/§9. -/
def overallConfidenceOf (cfg : CombinerConfig) (invoked : List String)
    (records retained : List ContextRecord) : Rat :=
  if retained = [] then 0
  else cfg.wSuccess * successFraction invoked records
    + cfg.wRelevance * relevanceFactor cfg.maxRecords retained

/-- Modelled from the spec: `combine(list<ContextRecord>) -> ContextBundle`
(§4.5): deduplicate, rank, truncate, compute confidence, and record
`tools_used` from the retained records.  `invoked` is the snapshot of tool
ids selected for the request (needed by the step-4 success fraction). -/
def combine (cfg : CombinerConfig) (invoked : List String)
    (records : List ContextRecord) : ContextBundle :=
  let retained := (rankRecords (dedupRecords records)).take cfg.maxRecords
  { records := retained,
    tools_used := (retained.map ContextRecord.source_tool).dedup,
    overall_confidence := overallConfidenceOf cfg invoked records retained }

/-! ## Orchestration pipeline (modelled from the spec, §2/§4.6/§6) -/

/-- Modelled from the spec: the answer structure returned by the inbound
`query` entry point (§6). -/
structure QueryResult where
  answer : String
  tools_used : List String
  confidence : Rat
  context : ContextBundle
deriving DecidableEq, Repr

/-- Modelled from the spec: the request pipeline (§2 control flow) from
selected tools to the synthesized answer.  The Synthesis Gateway is the
opaque `synthesize` collaborator (§4.6); it is applied to every bundle,
including the empty one. -/
def queryPipeline (cfg : CombinerConfig) (tools : List ToolSpec)
    (question : String)
    (behaviors : String → String → Nat → AttemptOutcome)
    (synthesize : String → ContextBundle → String) : QueryResult :=
  let invocations := execute tools question behaviors
  let records := (invocations.map normalizeInvocation).flatten
  let bundle := combine cfg (tools.map ToolSpec.id) records
  { answer := synthesize question bundle,
    tools_used := bundle.tools_used,
    confidence := bundle.overall_confidence,
    context := bundle }

/-! ## Frontend: the `useChat` hook (frontend/src/hooks, `sendMessage`)

Translated from the TypeScript source.  React state updates are rendered as
explicit state passing; the `uuidv4()` ids, the `new Date()` timestamp and
the outcome of the awaited `queryAdvisor` call are inputs of the model. -/

/-- A chat `Message` as in the frontend's type: id, content, role,
timestamp, streaming flag, and the optional response metadata. -/
structure ChatMessage where
  id : String
  content : String
  role : String
  timestamp : Nat
  isStreaming : Bool := false
  tools_used : Option (List String) := none
  confidence : Option Rat := none
  context : Option String := none
deriving DecidableEq, Repr

/-- The state held by `useChat`: the `useState` cells plus the
`lastMessageRef` ref. -/
structure ChatHookState where
  messages : List ChatMessage
  isLoading : Bool
  error : Option String
  toolsUsed : List String
  confidence : Rat
  lastMessageRef : Option ChatMessage
deriving DecidableEq, Repr

/-- The settled outcome of the awaited `queryAdvisor(request)` call:
either a response or an error surfaced by `handleAPIError`. -/
inductive QueryOutcome where
  | ok (response : String) (tools_used : List String) (confidence : Rat)
      (context : Option String)
  | failed (errorMessage : String)
deriving DecidableEq, Repr

/-- `updateLastMessage`: replace the last message by its update, leaving an
empty list unchanged. -/
def updateLastMessage (u : ChatMessage → ChatMessage) :
    List ChatMessage → List ChatMessage
  | [] => []
  | [m] => [u m]
  | m :: rest => m :: updateLastMessage u rest

/-- `sendMessage(content)` from `useChat`: guard on blank input, append the
user message and the streaming assistant placeholder, then settle the
query outcome into the assistant message and the hook state.  Returns the
new state and whether a backend request was issued. -/
def sendMessage (st : ChatHookState) (content : String)
    (userId asstId : String) (now : Nat) (outcome : QueryOutcome) :
    ChatHookState × Bool :=
  if jsTrim content = "" then (st, false)
  else
    let userMessage : ChatMessage :=
      { id := userId, content := jsTrim content, role := "user",
        timestamp := now }
    let assistantMessage : ChatMessage :=
      { id := asstId, content := "", role := "assistant", timestamp := now,
        isStreaming := true }
    let st1 : ChatHookState :=
      { st with
        error := none,
        messages := st.messages ++ [userMessage, assistantMessage],
        isLoading := true }
    let st2 : ChatHookState :=
      match outcome with
      | .ok resp tools conf ctx =>
        { st1 with
          messages := updateLastMessage
            (fun m => { m with
              content := resp, tools_used := some tools,
              confidence := some conf, context := ctx,
              isStreaming := false }) st1.messages,
          toolsUsed := tools, confidence := conf,
          lastMessageRef := some userMessage }
      | .failed emsg =>
        { st1 with
          error := some emsg,
          messages := updateLastMessage
            (fun m => { m with
              content := "Sorry, I encountered an error: " ++ emsg,
              isStreaming := false }) st1.messages }
    ({ st2 with isLoading := false }, true)

/-! ## Frontend: the save-keys route (frontend/src/app/api/settings)

Translated from the TypeScript source of the `POST` handler.  JSON values
are embedded as an inductive type; JavaScript truthiness and the
`Object.keys` semantics of non-object values are modelled explicitly.  A
thrown `TypeError` (e.g. `.trim()` on a non-string) reaches the handler's
`catch` block, which responds 500. -/

/-- A parsed JSON value. -/
inductive JsonValue where
  | jnull
  | jbool (b : Bool)
  | jnum (n : Int)
  | jstr (s : String)
  | jarr (elems : List JsonValue)
  | jobj (fields : List (String × JsonValue))
deriving Repr

/-- JavaScript truthiness of a JSON value. -/
def truthy : JsonValue → Bool
  | .jnull => false
  | .jbool b => b
  | .jnum n => n != 0
  | .jstr s => s != ""
  | .jarr _ => true
  | .jobj _ => true

/-- `Object.keys(v)` together with the associated values: the own
enumerable string-keyed properties of `v`.  `Object.keys(null)` throws. -/
def ownEntries : JsonValue → Except Unit (List (String × JsonValue))
  | .jnull => .error ()
  | .jobj fields => .ok fields
  | .jarr elems => .ok (elems.enum.map fun p => (toString p.1, p.2))
  | .jstr s =>
    .ok ((s.toList.enum).map fun p => (toString p.1, .jstr (String.mk [p.2])))
  | .jbool _ => .ok []
  | .jnum _ => .ok []

/-- `Object.keys(apiKeys).filter(key => apiKeys[key] && apiKeys[key].trim()
!== '')`: the filter throws a `TypeError` when it meets a truthy non-string
value (which has no `trim` method). -/
def providedKeysOf : List (String × JsonValue) → Except Unit (List String)
  | [] => .ok []
  | (k, v) :: rest =>
    if truthy v then
      match v with
      | .jstr s =>
        match providedKeysOf rest with
        | .error e => .error e
        | .ok r => if jsTrim s != "" then .ok (k :: r) else .ok r
      | _ => .error ()
    else providedKeysOf rest

/-- The four keys the route always forwards. -/
def expectedKeys : List String := ["openai", "tavily", "langsmith", "cohere"]

/-- JavaScript property lookup on an entry list. -/
def jLookup : List (String × JsonValue) → String → Option JsonValue
  | [], _ => none
  | kv :: rest, k => if kv.1 == k then some kv.2 else jLookup rest k

/-- `obj[k] = v`: overwrite the property in place when present, otherwise
append it. -/
def jSetOrAppend : List (String × JsonValue) → String → JsonValue →
    List (String × JsonValue)
  | [], k, v => [(k, v)]
  | kv :: rest, k, v =>
    if kv.1 == k then (k, v) :: rest else kv :: jSetOrAppend rest k v

/-- One step of the route's `expectedKeys.forEach`: set the key to `''`
when it is absent or falsy. -/
def completeStep (acc : List (String × JsonValue)) (k : String) :
    List (String × JsonValue) :=
  match jLookup acc k with
  | some v => if truthy v then acc else jSetOrAppend acc k (.jstr "")
  | none => jSetOrAppend acc k (.jstr "")

/-- `completeApiKeys`: spread of the parsed body with every expected key
present (empty string when missing or falsy). -/
def completeApiKeysOf (fields : List (String × JsonValue)) :
    List (String × JsonValue) :=
  expectedKeys.foldl completeStep fields

/-- The observable result of the route handler: 400, 500, or a forward to
the backend with the given payload. -/
inductive RouteResult where
  | badRequest
  | serverError
  | forwarded (payload : List (String × JsonValue))
deriving Repr

/-- The `POST` handler of `save-keys/route.ts`.  `none` models a body that
fails to parse as JSON (`request.json()` throws, caught as a 500). -/
def savekeysPOST (body : Option JsonValue) : RouteResult :=
  match body with
  | none => .serverError
  | some apiKeys =>
    match ownEntries apiKeys with
    | .error _ => .serverError
    | .ok entries =>
      match providedKeysOf entries with
      | .error _ => .serverError
      | .ok provided =>
        if provided.length = 0 then .badRequest
        else .forwarded (completeApiKeysOf entries)

/-- A JSON value is a string with non-whitespace content (the reading of
"non-whitespace string" in the claim about the route). -/
def valueIsNonWsString : JsonValue → Bool
  | .jstr s => jsTrim s != ""
  | _ => false

/-- A JSON value lets the route reach the 400 branch: it is falsy or a
string that trims to the empty string. -/
def valueBlocksAll : JsonValue → Bool
  | .jnull => true
  | .jbool b => !b
  | .jnum n => n == 0
  | .jstr s => jsTrim s == ""
  | .jarr _ => false
  | .jobj _ => false

/-! ## Helper lemmas about the retry loop -/

/-- The retry loop always settles: its status is never `pending`. -/
theorem runAttempts_fst_ne_pending (b : Nat → AttemptOutcome) :
    ∀ r k, (runAttempts b r k).1 ≠ InvStatus.pending := by
  intro r
  induction r with
  | zero =>
    intro k
    rw [runAttempts.eq_def]
    rcases h : b k <;> simp [h]
  | succ n ih =>
    intro k
    rw [runAttempts.eq_def]
    rcases h : b k <;> simp [h]
    · exact ih (k + 1)
    · exact ih (k + 1)

/-- If no attempt ever succeeds, the retry loop settles in `error` or
`timeout`. -/
theorem runAttempts_fst_of_all_fail (b : Nat → AttemptOutcome)
    (hb : ∀ n, (b n).isSucceeded = false) :
    ∀ r k, (runAttempts b r k).1 = InvStatus.error
      ∨ (runAttempts b r k).1 = InvStatus.timeout := by
  intro r
  induction r with
  | zero =>
    intro k
    rw [runAttempts.eq_def]
    rcases h : b k with p | - | - | -
    · have hc := hb k
      rw [h] at hc
      simp [AttemptOutcome.isSucceeded] at hc
    · simp [h]
    · simp [h]
    · simp [h]
  | succ n ih =>
    intro k
    rw [runAttempts.eq_def]
    rcases h : b k with p | - | - | -
    · have hc := hb k
      rw [h] at hc
      simp [AttemptOutcome.isSucceeded] at hc
    · simpa [h] using ih (k + 1)
    · simpa [h] using ih (k + 1)
    · simp [h]

/-- A run whose relevant attempts are all transient failures exhausts its
retries and ends in `error` after `retriesLeft + 1` further attempts. -/
theorem runAttempts_all_transient (b : Nat → AttemptOutcome) :
    ∀ r k, (∀ n, k ≤ n → n ≤ k + r → b n = .transientError) →
      runAttempts b r k = (InvStatus.error, none, k + r + 1) := by
  intro r
  induction r with
  | zero =>
    intro k hk
    rw [runAttempts.eq_def]
    dsimp only
    rw [hk k le_rfl (by omega)]
  | succ n ih =>
    intro k hk
    rw [runAttempts.eq_def]
    dsimp only
    rw [hk k le_rfl (by omega)]
    have heq := ih (k + 1) (fun m h1 h2 => hk m (by omega) (by omega))
    dsimp only
    rw [show k + (n + 1) + 1 = k + 1 + n + 1 by omega]
    exact heq

/-! ## Claim theorems: Fan-Out Executor -/

/-- C1: for every list of selected ToolSpecs and every question, `execute`
returns exactly one ToolInvocation per selected tool (same ids in the same
order), each of them settled (never `pending`), regardless of how the
adapters behave or fail. -/
theorem claim_C1_execute_one_invocation_per_tool
    (tools : List ToolSpec) (question : String)
    (behaviors : String → String → Nat → AttemptOutcome) :
    (execute tools question behaviors).map ToolInvocation.tool_id
        = tools.map ToolSpec.id ∧
      ∀ inv ∈ execute tools question behaviors,
        inv.status ≠ InvStatus.pending := by
  constructor
  · simp only [execute, List.map_map]
    rfl
  · intro inv hinv
    simp only [execute, List.mem_map] at hinv
    obtain ⟨t, -, rfl⟩ := hinv
    exact runAttempts_fst_ne_pending _ _ _

/-- Witness for C1 at a concrete tool list and an adapter that always
times out. -/
theorem claim_C1_witness :
    (execute [⟨"tavily", ["web"], true, 30, 2⟩] "q"
        (fun _ _ _ => .timedOut)).map ToolInvocation.tool_id = ["tavily"] ∧
      ∀ inv ∈ execute [⟨"tavily", ["web"], true, 30, 2⟩] "q"
        (fun _ _ _ => .timedOut), inv.status ≠ InvStatus.pending :=
  claim_C1_execute_one_invocation_per_tool _ _ _

/-- C2: adapter-level failures never escape `execute` as faults: when
every attempt of every adapter fails, `execute` still returns the full
per-tool list, with every invocation's failure recorded as its status
(`error` or `timeout`).  In this embedding `execute` is a total function,
so no exception path exists at this layer. -/
theorem claim_C2_execute_absorbs_all_failures
    (tools : List ToolSpec) (question : String)
    (behaviors : String → String → Nat → AttemptOutcome)
    (hfail : ∀ tid q n, (behaviors tid q n).isSucceeded = false) :
    (execute tools question behaviors).map ToolInvocation.tool_id
        = tools.map ToolSpec.id ∧
      ∀ inv ∈ execute tools question behaviors,
        inv.status = InvStatus.error ∨ inv.status = InvStatus.timeout := by
  constructor
  · simp only [execute, List.map_map]
    rfl
  · intro inv hinv
    simp only [execute, List.mem_map] at hinv
    obtain ⟨t, -, rfl⟩ := hinv
    exact runAttempts_fst_of_all_fail _ (fun n => hfail t.id question n) _ _

/-- Witness for C2: two tools whose adapters always fail still yield the
two-element all-failed list. -/
theorem claim_C2_witness :
    (∀ tid q n,
        ((fun (_ : String) (_ : String) (_ : Nat) =>
          AttemptOutcome.timedOut) tid q n).isSucceeded = false) ∧
      (execute [⟨"tavily", ["web"], true, 30, 1⟩,
          ⟨"arxiv", ["academic"], true, 30, 1⟩] "q"
          (fun _ _ _ => .timedOut)).map ToolInvocation.tool_id
          = ["tavily", "arxiv"] ∧
      ∀ inv ∈ execute [⟨"tavily", ["web"], true, 30, 1⟩,
          ⟨"arxiv", ["academic"], true, 30, 1⟩] "q"
          (fun _ _ _ => .timedOut),
        inv.status = InvStatus.error ∨ inv.status = InvStatus.timeout :=
  ⟨fun _ _ _ => rfl,
    claim_C2_execute_absorbs_all_failures _ _ _ (fun _ _ _ => rfl)⟩

/-- C8: a tool invocation whose first `max_retries + 1` attempts all fail
transiently ends in status `error` with `attempt_count = max_retries + 1`
(the last attempt's outcome, with retries exhausted). -/
theorem claim_C8_exhausted_transient_retries
    (t : ToolSpec) (behavior : Nat → AttemptOutcome)
    (h : ∀ n ≤ t.max_retries, behavior n = .transientError) :
    (invokeWithPolicy t behavior).status = InvStatus.error ∧
      (invokeWithPolicy t behavior).attempt_count = t.max_retries + 1 := by
  have hrun := runAttempts_all_transient behavior t.max_retries 0
    (fun n _ h2 => h n (by omega))
  constructor
  · show (runAttempts behavior t.max_retries 0).1 = InvStatus.error
    rw [hrun]
  · show (runAttempts behavior t.max_retries 0).2.2 = t.max_retries + 1
    rw [hrun]
    show 0 + t.max_retries + 1 = t.max_retries + 1
    omega

/-- Witness for C8: a tool with `max_retries = 2` whose adapter fails
transiently on every attempt ends in `error` after 3 attempts. -/
theorem claim_C8_witness :
    (invokeWithPolicy ⟨"yfinance", ["market-data"], true, 30, 2⟩
        (fun _ => .transientError)).status = InvStatus.error ∧
      (invokeWithPolicy ⟨"yfinance", ["market-data"], true, 30, 2⟩
        (fun _ => .transientError)).attempt_count = 2 + 1 :=
  claim_C8_exhausted_transient_retries _ _ (fun _ _ => rfl)

/-! ## Claim theorems: Query Classifier -/

/-- C3: `classify` is total and never returns an empty tag list; the empty
question maps to the catch-all document-retrieval fallback. -/
theorem claim_C3_classify_never_empty :
    (∀ q : String, classify q ≠ []) ∧ classify "" = [fallbackTag] := by
  constructor
  · intro q
    rw [classify]
    split
    · simp
    · assumption
  · decide

/-- Witness for C3 at a concrete question. -/
theorem claim_C3_witness :
    classify "what is the best retirement strategy" ≠ [] :=
  claim_C3_classify_never_empty.1 "what is the best retirement strategy"

/-! ## Claim theorems: `useChat.sendMessage` -/

/-- C9: when the input's trimmed form is empty, `sendMessage` leaves the
whole chat state unchanged (messages, error, tools used, confidence) and
issues no request. -/
theorem claim_C9_sendMessage_blank_is_noop
    (st : ChatHookState) (content : String) (userId asstId : String)
    (now : Nat) (outcome : QueryOutcome)
    (h : jsTrim content = "") :
    sendMessage st content userId asstId now outcome = (st, false) := by
  simp [sendMessage, h]

/-- Witness for C9: a whitespace-only input on a concrete state. -/
theorem claim_C9_witness :
    sendMessage ⟨[], false, none, [], 0, none⟩ "   " "u1" "a1" 7
        (.failed "backend down") = (⟨[], false, none, [], 0, none⟩, false) :=
  claim_C9_sendMessage_blank_is_noop _ _ _ _ _ _ (by decide)

/-! ## Helper lemmas: normalizer and empty combine -/

/-- A failed invocation normalizes to zero records. -/
theorem normalizeInvocation_of_fail (inv : ToolInvocation)
    (h : inv.status = InvStatus.error ∨ inv.status = InvStatus.timeout) :
    normalizeInvocation inv = [] := by
  rcases h with h | h <;> simp [normalizeInvocation, h]

/-- Combining the empty record list yields the empty bundle with
confidence 0. -/
theorem combine_nil (cfg : CombinerConfig) (invoked : List String) :
    combine cfg invoked [] = ⟨[], [], 0⟩ := by
  simp [combine, dedupRecords, rankRecords, List.insertionSort,
    overallConfidenceOf]

/-! ## Claim theorems: empty bundle and gateway -/

/-- C7: combining an empty record list never fails and yields the valid
terminal bundle with `overall_confidence = 0` and empty `tools_used`; and
the Synthesis Gateway is still applied to that empty bundle (rather than
skipped) when every tool fails, its answer becoming the pipeline answer. -/
theorem claim_C7_empty_bundle_still_synthesized :
    (∀ (cfg : CombinerConfig) (invoked : List String),
        combine cfg invoked [] = ⟨[], [], 0⟩) ∧
      ∀ (cfg : CombinerConfig) (tools : List ToolSpec) (question : String)
        (behaviors : String → String → Nat → AttemptOutcome)
        (synth : String → ContextBundle → String),
        (∀ tid q n, (behaviors tid q n).isSucceeded = false) →
        queryPipeline cfg tools question behaviors synth
          = { answer := synth question ⟨[], [], 0⟩, tools_used := [],
              confidence := 0, context := ⟨[], [], 0⟩ } := by
  refine ⟨combine_nil, ?_⟩
  intro cfg tools question behaviors synth hfail
  have hrec :
      ((execute tools question behaviors).map normalizeInvocation).flatten
        = [] := by
    apply List.flatten_eq_nil_iff.mpr
    intro x hx
    simp only [List.mem_map] at hx
    obtain ⟨inv, hinv, rfl⟩ := hx
    simp only [execute, List.mem_map] at hinv
    obtain ⟨t, -, rfl⟩ := hinv
    exact normalizeInvocation_of_fail _
      (runAttempts_fst_of_all_fail _ (fun n => hfail t.id question n) _ _)
  simp only [queryPipeline, hrec, combine_nil]

/-- Witness for C7: one tool that always times out; the gateway's answer
still becomes the pipeline answer over the empty bundle. -/
theorem claim_C7_witness :
    queryPipeline ⟨5, 1, 0⟩ [⟨"rag", ["document"], true, 30, 1⟩] "q"
        (fun _ _ _ => .timedOut) (fun _ _ => "general answer")
      = { answer := "general answer", tools_used := [], confidence := 0,
          context := ⟨[], [], 0⟩ } :=
  claim_C7_empty_bundle_still_synthesized.2 _ _ _ _ _ (fun _ _ _ => rfl)

/-! ## Helper lemmas: the save-keys route -/

/-- If every value of the body blocks provision, the filter succeeds with
an empty provided list. -/
theorem providedKeys_ok_nil_of_all :
    ∀ entries : List (String × JsonValue),
      entries.all (fun kv => valueBlocksAll kv.2) = true →
      providedKeysOf entries = .ok [] := by
  intro entries
  induction entries with
  | nil => intro _; rfl
  | cons kv rest ih =>
    intro hall
    rw [List.all_cons, Bool.and_eq_true] at hall
    obtain ⟨hv, hrest⟩ := hall
    obtain ⟨k, v⟩ := kv
    rcases v with - | b | n | s | a | f
    · simp [providedKeysOf, truthy, ih hrest]
    · have : b = false := by simpa [valueBlocksAll] using hv
      subst this
      simp [providedKeysOf, truthy, ih hrest]
    · have : n = 0 := by simpa [valueBlocksAll] using hv
      subst this
      simp [providedKeysOf, truthy, ih hrest]
    · have hts : jsTrim s = "" := by simpa [valueBlocksAll] using hv
      by_cases hs : s = ""
      · subst hs
        simp [providedKeysOf, truthy, ih hrest]
      · simp [providedKeysOf, truthy, hs, ih hrest, hts]
    · simp [valueBlocksAll] at hv
    · simp [valueBlocksAll] at hv

/-- Conversely, an empty provided list means every value blocked. -/
theorem providedKeys_all_of_ok_nil :
    ∀ entries : List (String × JsonValue),
      providedKeysOf entries = .ok [] →
      entries.all (fun kv => valueBlocksAll kv.2) = true := by
  intro entries
  induction entries with
  | nil => intro _; rfl
  | cons kv rest ih =>
    intro hok
    obtain ⟨k, v⟩ := kv
    rw [List.all_cons, Bool.and_eq_true]
    rcases v with - | b | n | s | a | f
    · simp only [providedKeysOf, truthy] at hok
      exact ⟨rfl, ih (by simpa using hok)⟩
    · rcases b with - | -
      · simp only [providedKeysOf, truthy] at hok
        exact ⟨rfl, ih (by simpa using hok)⟩
      · simp [providedKeysOf, truthy] at hok
    · by_cases hn : n = 0
      · subst hn
        simp only [providedKeysOf, truthy] at hok
        refine ⟨by simp [valueBlocksAll], ih (by simpa using hok)⟩
      · simp [providedKeysOf, truthy, hn] at hok
    · by_cases hs : s = ""
      · subst hs
        simp only [providedKeysOf, truthy] at hok
        refine ⟨by simp [valueBlocksAll, jsTrim, jsTrimList],
          ih (by simpa using hok)⟩
      · simp only [providedKeysOf, truthy] at hok
        rw [if_pos (by simpa using hs)] at hok
        rcases hrest : providedKeysOf rest with e | r
        · rw [hrest] at hok
          simp at hok
        · rw [hrest] at hok
          dsimp only at hok
          by_cases ht : jsTrim s = ""
          · rw [if_neg (by simp [ht])] at hok
            simp only [Except.ok.injEq] at hok
            subst hok
            exact ⟨by simp [valueBlocksAll, ht], ih hrest⟩
          · rw [if_pos (by simpa using ht)] at hok
            simp at hok
    · simp [providedKeysOf, truthy] at hok
    · simp [providedKeysOf, truthy] at hok

/-- Setting a key makes it look up to the new value. -/
theorem jLookup_setOrAppend_self (fields : List (String × JsonValue))
    (k : String) (v : JsonValue) :
    jLookup (jSetOrAppend fields k v) k = some v := by
  induction fields with
  | nil => simp [jSetOrAppend, jLookup]
  | cons kv rest ih =>
    by_cases h : kv.1 == k
    · simp [jSetOrAppend, h, jLookup]
    · simp [jSetOrAppend, h, jLookup, ih]

/-- Setting one key leaves lookups of a different key unchanged. -/
theorem jLookup_setOrAppend_ne (fields : List (String × JsonValue))
    (k k' : String) (v : JsonValue) (hne : k ≠ k') :
    jLookup (jSetOrAppend fields k' v) k = jLookup fields k := by
  have hkk : (k' == k) = false := by simpa using Ne.symm hne
  induction fields with
  | nil => simp [jSetOrAppend, jLookup, hkk]
  | cons kv rest ih =>
    by_cases h : kv.1 == k'
    · have h1 : kv.1 = k' := by simpa using h
      simp [jSetOrAppend, h, jLookup, hkk, h1]
    · simp [jSetOrAppend, h, jLookup, ih]

/-- One `completeStep` at its own key yields a present lookup, an empty
string when the key was previously absent. -/
theorem jLookup_completeStep_self (acc : List (String × JsonValue))
    (k : String) :
    ∃ v, jLookup (completeStep acc k) k = some v
      ∧ (jLookup acc k = none → v = .jstr "") := by
  rcases hl : jLookup acc k with _ | v
  · refine ⟨.jstr "", ?_, fun _ => rfl⟩
    simp only [completeStep, hl]
    exact jLookup_setOrAppend_self acc k _
  · by_cases ht : truthy v = true
    · refine ⟨v, ?_, fun h => Option.noConfusion h⟩
      simp only [completeStep, hl, ht, if_true]
    · refine ⟨.jstr "", ?_, fun _ => rfl⟩
      simp only [completeStep, hl]
      rw [if_neg ht]
      exact jLookup_setOrAppend_self acc k _

/-- `completeStep` at a different key does not change a lookup. -/
theorem jLookup_completeStep_ne (acc : List (String × JsonValue))
    (k k' : String) (hne : k ≠ k') :
    jLookup (completeStep acc k') k = jLookup acc k := by
  rcases hl : jLookup acc k' with _ | v
  · simp only [completeStep, hl]
    exact jLookup_setOrAppend_ne acc k k' _ hne
  · by_cases ht : truthy v = true
    · simp only [completeStep, hl, ht, if_true]
    · simp only [completeStep, hl]
      rw [if_neg ht]
      exact jLookup_setOrAppend_ne acc k k' _ hne

/-- Folding `completeStep` over keys not containing `k` preserves the
lookup at `k`. -/
theorem jLookup_foldl_completeStep_not_mem :
    ∀ (keys : List String) (acc : List (String × JsonValue)) (k : String),
      k ∉ keys →
      jLookup (keys.foldl completeStep acc) k = jLookup acc k := by
  intro keys
  induction keys with
  | nil => intro acc k _; rfl
  | cons k' rest ih =>
    intro acc k hk
    rw [List.foldl_cons, ih _ _ (fun h => hk (List.mem_cons_of_mem _ h)),
      jLookup_completeStep_ne acc k k' (fun h => hk (h ▸ List.mem_cons_self _ _))]

/-- Folding `completeStep` over a duplicate-free key list makes every one
of its keys present, with the empty string for keys absent from the
original object. -/
theorem jLookup_foldl_completeStep_mem :
    ∀ (keys : List String) (acc : List (String × JsonValue)) (k : String),
      keys.Nodup → k ∈ keys →
      ∃ v, jLookup (keys.foldl completeStep acc) k = some v
        ∧ (jLookup acc k = none → v = .jstr "") := by
  intro keys
  induction keys with
  | nil => intro acc k _ h; cases h
  | cons k' rest ih =>
    intro acc k hnd hk
    rw [List.nodup_cons] at hnd
    rw [List.foldl_cons]
    rcases List.mem_cons.mp hk with rfl | hmem
    · obtain ⟨v, hv, hv0⟩ := jLookup_completeStep_self acc k
      refine ⟨v, ?_, hv0⟩
      rw [jLookup_foldl_completeStep_not_mem rest _ k hnd.1]
      exact hv
    · have hne : k ≠ k' := fun h => hnd.1 (h ▸ hmem)
      obtain ⟨v, hv, hv0⟩ := ih (completeStep acc k') k hnd.2 hmem
      exact ⟨v, hv, fun h0 =>
        hv0 (by rw [jLookup_completeStep_ne acc k k' hne]; exact h0)⟩

/-! ## Claim theorems: the save-keys route (C10) -/

/-- C10 counterexample: the body `{"openai": true}` parses as JSON and
none of its values is a non-whitespace string, yet the route responds 500
(a `TypeError` from `.trim()` on a non-string reaches the catch block),
not 400 — refuting the claimed equivalence at this input. -/
theorem claim_C10_counterexample :
    ¬ (savekeysPOST (some (.jobj [("openai", .jbool true)]))
          = RouteResult.badRequest
        ↔ ([("openai", JsonValue.jbool true)].all
            fun kv => !valueIsNonWsString kv.2) = true) := by
  intro hiff
  have h400 := hiff.mpr rfl
  exact RouteResult.noConfusion
    (show RouteResult.serverError = RouteResult.badRequest from h400)

/-- C10 (amended): for JSON-object bodies, the route responds 400 exactly
when every value is either falsy or a string trimming to empty (a truthy
non-string value instead raises a `TypeError`, answered as 500); and
whenever the route forwards to the backend, the forwarded payload contains
all four keys `openai`, `tavily`, `langsmith`, `cohere`, any key missing
from the body being set to the empty string. -/
theorem claim_C10_amended_route_contract :
    (∀ fields : List (String × JsonValue),
        savekeysPOST (some (.jobj fields)) = RouteResult.badRequest
          ↔ (fields.all fun kv => valueBlocksAll kv.2) = true) ∧
      ∀ (fields payload : List (String × JsonValue)),
        savekeysPOST (some (.jobj fields)) = RouteResult.forwarded payload →
        ∀ k ∈ expectedKeys, ∃ v, jLookup payload k = some v
          ∧ (jLookup fields k = none → v = .jstr "") := by
  constructor
  · intro fields
    constructor
    · intro h
      simp only [savekeysPOST, ownEntries] at h
      rcases hp : providedKeysOf fields with e | provided
      · rw [hp] at h
        exact absurd h (by simp)
      · rw [hp] at h
        dsimp only at h
        by_cases hlen : provided.length = 0
        · have : provided = [] := List.length_eq_zero.mp hlen
          subst this
          exact providedKeys_all_of_ok_nil fields hp
        · rw [if_neg hlen] at h
          exact absurd h (by simp)
    · intro h
      have hp := providedKeys_ok_nil_of_all fields h
      simp [savekeysPOST, ownEntries, hp]
  · intro fields payload h k hk
    simp only [savekeysPOST, ownEntries] at h
    rcases hp : providedKeysOf fields with e | provided
    · rw [hp] at h
      exact absurd h (by simp)
    · rw [hp] at h
      dsimp only at h
      by_cases hlen : provided.length = 0
      · rw [if_pos hlen] at h
        exact absurd h (by simp)
      · rw [if_neg hlen] at h
        simp only [RouteResult.forwarded.injEq] at h
        subst h
        exact jLookup_foldl_completeStep_mem expectedKeys fields k
          (by decide) hk

/-- Witness for C10's amended theorem: the body `{"openai": "sk-test"}`
forwards, and the forwarded payload carries the absent `cohere` key as the
empty string. -/
theorem claim_C10_witness :
    ∃ v, jLookup (completeApiKeysOf [("openai", .jstr "sk-test")]) "cohere"
        = some v
      ∧ (jLookup [("openai", JsonValue.jstr "sk-test")] "cohere" = none
          → v = JsonValue.jstr "") :=
  claim_C10_amended_route_contract.2 [("openai", .jstr "sk-test")]
    (completeApiKeysOf [("openai", .jstr "sk-test")]) rfl "cohere"
    (by decide)

/-! ## Helper lemmas: clamped scores and top-m sums -/

theorem clamp01_nonneg (q : Rat) : 0 ≤ clamp01 q :=
  le_min zero_le_one (le_max_left 0 q)

theorem clamp01_le_one (q : Rat) : clamp01 q ≤ 1 := min_le_left 1 _

theorem clampedScore_nonneg (r : ContextRecord) : 0 ≤ clampedScore r :=
  clamp01_nonneg _

/-- The ranked list is a permutation of its input. -/
theorem rankRecords_perm (l : List ContextRecord) :
    (rankRecords l).Perm l :=
  List.perm_insertionSort leScore l

/-- Members of an `insertDedup` come from the inserted record or the
accumulator. -/
theorem mem_insertDedup (r : ContextRecord) :
    ∀ (acc : List ContextRecord) (x : ContextRecord),
      x ∈ insertDedup r acc → x = r ∨ x ∈ acc := by
  intro acc
  induction acc with
  | nil =>
    intro x hx
    simp [insertDedup] at hx
    exact Or.inl hx
  | cons d rest ih =>
    intro x hx
    rw [insertDedup] at hx
    by_cases hdup : isDup d r = true
    · rw [if_pos hdup] at hx
      by_cases hsc : d.relevance_score < r.relevance_score
      · rw [if_pos hsc] at hx
        rcases List.mem_cons.mp hx with rfl | hx'
        · exact Or.inl rfl
        · exact Or.inr (List.mem_cons_of_mem d hx')
      · rw [if_neg hsc] at hx
        exact Or.inr hx
    · rw [if_neg hdup] at hx
      rcases List.mem_cons.mp hx with rfl | hx'
      · exact Or.inr (List.mem_cons_self x rest)
      · rcases ih x hx' with h | h
        · exact Or.inl h
        · exact Or.inr (List.mem_cons_of_mem d h)

/-- Members of the dedup fold come from the accumulator or the input. -/
theorem mem_foldl_insertDedup :
    ∀ (l acc : List ContextRecord) (x : ContextRecord),
      x ∈ l.foldl (fun a r => insertDedup r a) acc → x ∈ acc ∨ x ∈ l := by
  intro l
  induction l with
  | nil =>
    intro acc x hx
    exact Or.inl hx
  | cons r rest ih =>
    intro acc x hx
    rw [List.foldl_cons] at hx
    rcases ih _ x hx with h | h
    · rcases mem_insertDedup r acc x h with rfl | h'
      · exact Or.inr (List.mem_cons_self x rest)
      · exact Or.inl h'
    · exact Or.inr (List.mem_cons_of_mem r h)

/-- Members of `dedupRecords l` are members of `l`. -/
theorem mem_dedupRecords {l : List ContextRecord} {x : ContextRecord}
    (hx : x ∈ dedupRecords l) : x ∈ l := by
  rcases mem_foldl_insertDedup l [] x hx with h | h
  · cases h
  · exact h

/-- `insertDedup` passes over a prefix containing no duplicate of the
record. -/
theorem insertDedup_append_of_no_dup (r : ContextRecord) :
    ∀ pre post : List ContextRecord, (∀ d ∈ pre, isDup d r = false) →
      insertDedup r (pre ++ post) = pre ++ insertDedup r post := by
  intro pre
  induction pre with
  | nil => intro post _; rfl
  | cons d rest ih =>
    intro post h
    rw [List.cons_append, insertDedup,
      if_neg (by simp [h d (List.mem_cons_self d rest)]), List.cons_append,
      ih post (fun x hx => h x (List.mem_cons_of_mem d hx))]

/-- The dedup fold ignores a prefix none of whose members duplicates any
incoming record. -/
theorem foldl_insertDedup_append :
    ∀ (new pre acc : List ContextRecord),
      (∀ n ∈ new, ∀ d ∈ pre, isDup d n = false) →
      new.foldl (fun a r => insertDedup r a) (pre ++ acc)
        = pre ++ new.foldl (fun a r => insertDedup r a) acc := by
  intro new
  induction new with
  | nil => intro pre acc _; rfl
  | cons n rest ih =>
    intro pre acc h
    rw [List.foldl_cons, List.foldl_cons,
      insertDedup_append_of_no_dup n pre acc
        (h n (List.mem_cons_self n rest)),
      ih pre _ (fun x hx d hd => h x (List.mem_cons_of_mem n hx) d hd)]

/-- Deduplication distributes over an append when no new record
duplicates any old one. -/
theorem dedupRecords_append (old new : List ContextRecord)
    (h : ∀ n ∈ new, ∀ o ∈ old, isDup o n = false) :
    dedupRecords (old ++ new) = dedupRecords old ++ dedupRecords new := by
  unfold dedupRecords
  rw [List.foldl_append]
  have := foldl_insertDedup_append new (dedupRecords old) []
    (fun n hn d hd => h n hn d (mem_dedupRecords hd))
  simpa using this

/-- A pairwise duplicate-free list deduplicates to itself. -/
theorem dedupRecords_of_pairwise :
    ∀ l : List ContextRecord,
      l.Pairwise (fun a b => isDup a b = false) → dedupRecords l = l := by
  intro l
  induction l with
  | nil => intro _; rfl
  | cons a t ih =>
    intro h
    rw [List.pairwise_cons] at h
    have step : dedupRecords (a :: t)
        = t.foldl (fun acc r => insertDedup r acc) [a] := rfl
    rw [step]
    have := foldl_insertDedup_append t [a] []
      (fun n hn d hd => by
        rcases List.mem_singleton.mp hd with rfl
        exact h.1 n hn)
    simp only [List.append_nil] at this
    rw [this]
    rw [show t.foldl (fun acc r => insertDedup r acc) [] = dedupRecords t
      from rfl, ih h.2]
    rfl

/-! ## Helper lemmas: confidence factors -/

theorem successFraction_nonneg (invoked : List String)
    (records : List ContextRecord) :
    0 ≤ successFraction invoked records := by
  unfold successFraction
  split
  · exact le_rfl
  · exact div_nonneg (by positivity) (by positivity)

theorem successFraction_le_one (invoked : List String)
    (records : List ContextRecord) :
    successFraction invoked records ≤ 1 := by
  unfold successFraction
  split
  · exact zero_le_one
  · rename_i hne
    have hpos : (0 : Rat) < (invoked.length : Rat) := by
      have : invoked.length ≠ 0 := fun h0 =>
        hne (List.length_eq_zero.mp h0)
      exact_mod_cast Nat.pos_of_ne_zero this
    rw [div_le_one hpos]
    exact_mod_cast List.length_filter_le _ invoked

theorem relevanceFactor_nonneg (m : Nat) (retained : List ContextRecord) :
    0 ≤ relevanceFactor m retained := by
  unfold relevanceFactor
  split
  · exact le_rfl
  · apply div_nonneg _ (by positivity)
    apply List.sum_nonneg
    intro x hx
    obtain ⟨r, -, rfl⟩ := List.mem_map.mp hx
    exact clampedScore_nonneg r

theorem relevanceFactor_le_one (m : Nat) (retained : List ContextRecord)
    (hlen : retained.length ≤ m) :
    relevanceFactor m retained ≤ 1 := by
  unfold relevanceFactor
  split
  · exact zero_le_one
  · rename_i hm
    have hpos : (0 : Rat) < (m : Rat) := by
      exact_mod_cast Nat.pos_of_ne_zero hm
    rw [div_le_one hpos]
    calc (retained.map clampedScore).sum
        ≤ (retained.map clampedScore).length • (1 : Rat) := by
          apply List.sum_le_card_nsmul
          intro x hx
          obtain ⟨r, -, rfl⟩ := List.mem_map.mp hx
          exact clamp01_le_one _
      _ = ((retained.length : Rat)) := by
          simp [nsmul_eq_mul]
      _ ≤ (m : Rat) := by exact_mod_cast hlen

/-- The combiner's confidence is nonnegative for nonnegative weights. -/
theorem overallConfidenceOf_nonneg (cfg : CombinerConfig)
    (invoked : List String) (records retained : List ContextRecord)
    (hS : 0 ≤ cfg.wSuccess) (hR : 0 ≤ cfg.wRelevance) :
    0 ≤ overallConfidenceOf cfg invoked records retained := by
  unfold overallConfidenceOf
  split
  · exact le_rfl
  · exact add_nonneg
      (mul_nonneg hS (successFraction_nonneg _ _))
      (mul_nonneg hR (relevanceFactor_nonneg _ _))

/-! ## Claim theorems: ContextBundle invariants (C4) -/

/-- C4: every bundle built by `combine` has `tools_used` equal to the set
of `source_tool` values of its retained records — hence a subset of the
invoked tools whenever the input records come from invoked tools — and an
`overall_confidence` that is a well-defined rational in `[0,1]` (for any
valid weighting), including for bundles with zero records. -/
theorem claim_C4_bundle_invariants (cfg : CombinerConfig)
    (invoked : List String) (records : List ContextRecord)
    (hS : 0 ≤ cfg.wSuccess) (hR : 0 ≤ cfg.wRelevance)
    (hSum : cfg.wSuccess + cfg.wRelevance ≤ 1)
    (hsrc : ∀ r ∈ records, r.source_tool ∈ invoked) :
    (combine cfg invoked records).tools_used
        = ((combine cfg invoked records).records.map
            ContextRecord.source_tool).dedup ∧
      (∀ t ∈ (combine cfg invoked records).tools_used, t ∈ invoked) ∧
      0 ≤ (combine cfg invoked records).overall_confidence ∧
      (combine cfg invoked records).overall_confidence ≤ 1 := by
  refine ⟨rfl, ?_, ?_, ?_⟩
  · intro t ht
    have ht' : t ∈ ((rankRecords (dedupRecords records)).take
        cfg.maxRecords).map ContextRecord.source_tool :=
      List.mem_dedup.mp ht
    obtain ⟨r, hr, rfl⟩ := List.mem_map.mp ht'
    have hr1 : r ∈ rankRecords (dedupRecords records) :=
      List.take_subset _ _ hr
    have hr2 : r ∈ dedupRecords records :=
      (rankRecords_perm (dedupRecords records)).subset hr1
    exact hsrc r (mem_dedupRecords hr2)
  · exact overallConfidenceOf_nonneg cfg invoked records _ hS hR
  · show overallConfidenceOf cfg invoked records
      ((rankRecords (dedupRecords records)).take cfg.maxRecords) ≤ 1
    unfold overallConfidenceOf
    split
    · exact zero_le_one
    · have h1 : cfg.wSuccess * successFraction invoked records
          ≤ cfg.wSuccess * 1 :=
        mul_le_mul_of_nonneg_left (successFraction_le_one _ _) hS
      have h2 : cfg.wRelevance * relevanceFactor cfg.maxRecords
            ((rankRecords (dedupRecords records)).take cfg.maxRecords)
          ≤ cfg.wRelevance * 1 :=
        mul_le_mul_of_nonneg_left
          (relevanceFactor_le_one _ _ (List.length_take_le _ _)) hR
      linarith

/-- Witness for C4 at a concrete configuration and record list. -/
theorem claim_C4_witness :
    (combine ⟨3, 1, 0⟩ ["tavily", "rag"]
          [⟨"tavily", "t", "b", "u", 1, 0⟩]).tools_used
        = (((combine ⟨3, 1, 0⟩ ["tavily", "rag"]
            [⟨"tavily", "t", "b", "u", 1, 0⟩]).records.map
              ContextRecord.source_tool).dedup) ∧
      (∀ t ∈ (combine ⟨3, 1, 0⟩ ["tavily", "rag"]
          [⟨"tavily", "t", "b", "u", 1, 0⟩]).tools_used,
        t ∈ ["tavily", "rag"]) ∧
      0 ≤ (combine ⟨3, 1, 0⟩ ["tavily", "rag"]
          [⟨"tavily", "t", "b", "u", 1, 0⟩]).overall_confidence ∧
      (combine ⟨3, 1, 0⟩ ["tavily", "rag"]
          [⟨"tavily", "t", "b", "u", 1, 0⟩]).overall_confidence ≤ 1 :=
  claim_C4_bundle_invariants ⟨3, 1, 0⟩ ["tavily", "rag"]
    [⟨"tavily", "t", "b", "u", 1, 0⟩] zero_le_one le_rfl
    (add_zero (1 : Rat)).le
    (by intro r hr; rcases List.mem_singleton.mp hr with rfl; simp)

/-! ## Claim theorems: deduplication (C6) -/

/-- C6: two records that differ only in `relevance_score` (hence share
both the `(source_tool, url_or_reference)` pair and the normalized
`body_text`) collapse under `combine` to exactly the higher-scored one. -/
theorem claim_C6_dedup_keeps_higher_score (cfg : CombinerConfig)
    (invoked : List String) (a b : ContextRecord)
    (h1 : a.source_tool = b.source_tool) (h2 : a.title = b.title)
    (h3 : a.body_text = b.body_text)
    (h4 : a.url_or_reference = b.url_or_reference)
    (h5 : a.timestamp = b.timestamp)
    (hscore : a.relevance_score < b.relevance_score)
    (hmax : 1 ≤ cfg.maxRecords) :
    (combine cfg invoked [a, b]).records = [b] := by
  have hdup : isDup a b = true := by
    simp [isDup, h1, h4]
  have hded : dedupRecords [a, b] = [b] := by
    show insertDedup b (insertDedup a []) = [b]
    show insertDedup b [a] = [b]
    rw [insertDedup, if_pos hdup, if_pos hscore]
  show (rankRecords (dedupRecords [a, b])).take cfg.maxRecords = [b]
  rw [hded]
  show [b].take cfg.maxRecords = [b]
  exact List.take_of_length_le (by simpa using hmax)

/-- Witness for C6: two copies of one record differing only in score
(0 versus 1) collapse to the score-1 copy. -/
theorem claim_C6_witness :
    (combine ⟨3, 1, 0⟩ ["tavily"]
        [⟨"tavily", "t", "b", "u", 0, 5⟩, ⟨"tavily", "t", "b", "u", 1, 5⟩]
      ).records = [⟨"tavily", "t", "b", "u", 1, 5⟩] :=
  claim_C6_dedup_keeps_higher_score ⟨3, 1, 0⟩ ["tavily"]
    ⟨"tavily", "t", "b", "u", 0, 5⟩ ⟨"tavily", "t", "b", "u", 1, 5⟩
    rfl rfl rfl rfl rfl (by decide) (by decide)

/-! ## Helper lemmas: the dedup fold never lowers the windowed sum -/

end WealthAdvisor


